import Mathlib

/-!
# Preview resolution in `web/pages/[slug].js`

A shallow embedding of the JavaScript helper `filterDataToSingleItem` and of the
data-loading hook `getStaticProps`, followed by the properties of the document
resolver that hold of the code.

JavaScript values are embedded as the inductive type `Value`; an evaluation that
can raise returns `Except JSError _`.
-/

namespace SanityPreview

/-! ## Values -/

/-- JavaScript values, as far as the page module can observe them.  Numbers are
integers (no `NaN`), objects are association lists of own properties, and there
are no function values, so a method exists only where the embedding gives it. -/
inductive Value where
  | undefined : Value
  | null : Value
  | bool (b : Bool) : Value
  | number (n : Int) : Value
  | string (s : String) : Value
  | object (fields : List (String × Value)) : Value
  | array (items : List Value) : Value

/-- The exceptions the embedded code can raise. -/
inductive JSError where
  | typeError : JSError
  | rejected : JSError

open Value

/-- `Array.isArray(v)`. -/
def isArray : Value → Bool
  | array _ => true
  | _ => false

/-- Truthiness of a value (`ToBoolean`): what `!v` negates. -/
def toBoolean : Value → Bool
  | undefined => false
  | null => false
  | .bool b => b
  | .number n => n != 0
  | .string s => s.data != []
  | object _ => true
  | array _ => true

/-- Own-property lookup in an object literal: the first binding of the key. -/
def lookupField (key : String) : List (String × Value) → Option Value
  | [] => none
  | (k, v) :: rest => if k = key then some v else lookupField key rest

/-- Property read `v.key`: a `TypeError` on `undefined` and `null`, the property
of an object, and `undefined` where the value has no such property. -/
def getProp (v : Value) (key : String) : Except JSError Value :=
  match v with
  | undefined => .error .typeError
  | null => .error .typeError
  | object fields => .ok ((lookupField key fields).getD undefined)
  | _ => .ok undefined

/-- The string the draft namespace is recognised by. -/
def draftPrefix : String := "drafts."

/-- Method call `v.startsWith(pre)`: defined on strings only; on any other value
the method is missing (or the receiver is `undefined`/`null`) and the call raises. -/
def startsWith (v : Value) (pre : String) : Except JSError Bool :=
  match v with
  | string s => .ok (pre.data.isPrefixOf s.data)
  | _ => .error .typeError

/-- The filter callback `(item) => item._id.startsWith("drafts.")`. -/
def draftTest (item : Value) : Except JSError Bool := do
  let id ← getProp item "_id"
  startsWith id draftPrefix

/-- `Array.prototype.filter` with a callback that may raise: the callback runs on
every element in order, and the first exception aborts the whole call. -/
def filterArray (f : Value → Except JSError Bool) : List Value → Except JSError (List Value)
  | [] => .ok []
  | x :: xs => do
    let keep ← f x
    let rest ← filterArray f xs
    pure (if keep then x :: rest else rest)

/-- Expression `xs.slice(-1)[0]`: the last element, `undefined` for the empty array. -/
def sliceLast (xs : List Value) : Value :=
  (xs.getLast?).getD undefined

/-! ## The resolver -/

/-- Embedding of `filterDataToSingleItem(data, preview)`. -/
def filterDataToSingleItem (data : Value) (preview : Bool) : Except JSError Value :=
  match data with
  | array items =>
    if decide (items.length > 1) && preview then do
      let drafts ← filterArray draftTest items
      pure (sliceLast drafts)
    else
      pure (sliceLast items)
  | other => pure other

/-! ## The data-loading hook -/

/-- The argument the framework passes to `getStaticProps`; `preview` is `none`
when the framework supplies no value (preview mode inactive). -/
structure Context where
  params : Value
  preview : Option Bool

/-- What `getStaticProps` returns: `{ notFound: true }` or
`{ props: { preview, data: { page, query, queryParams } } }`. -/
inductive StaticPropsResult where
  | notFound : StaticPropsResult
  | props (preview : Bool) (page : Value) (query : String) (queryParams : Value) :
      StaticPropsResult

/-- The query text of `getStaticProps`. -/
def articleQuery : String := "*[_type == \"article\" && slug.current == $slug]"

/-- Embedding of `getStaticProps({ params, preview = true })`.  The store client
`getClient(preview).fetch(query, queryParams)` lives outside the module and is the
parameter `fetch`. -/
def getStaticProps (fetch : Bool → String → Value → Except JSError Value)
    (ctx : Context) : Except JSError StaticPropsResult := do
  let preview := ctx.preview.getD true
  let slug ← getProp ctx.params "slug"
  let queryParams := object [("slug", slug)]
  let data ← fetch preview articleQuery queryParams
  if !toBoolean data then
    pure StaticPropsResult.notFound
  else do
    let page ← filterDataToSingleItem data preview
    pure (StaticPropsResult.props preview page articleQuery queryParams)

/-! ## Vocabulary of the properties -/

/-- A value is a document when it is a record whose `_id` is a string. -/
def isDocument : Value → Bool
  | object fields =>
    match lookupField "_id" fields with
    | some (string _) => true
    | _ => false
  | _ => false

/-- A value is a draft when the draft test runs on it and answers `true`. -/
def isDraft (v : Value) : Bool :=
  match draftTest v with
  | .ok b => b
  | .error _ => false

/-- The characters of the draft namespace, spelled out as the specification
names it: `d`, `r`, `a`, `f`, `t`, `s` and a full stop. -/
def draftNamespace : List Char := ['d', 'r', 'a', 'f', 't', 's', '.']

/-- Following the specification's words, independently of the code's callback: a
document whose `_id` is a string that starts with `drafts.`. -/
def hasDraftId : Value → Bool
  | object fields =>
    match lookupField "_id" fields with
    | some (string s) => draftNamespace.isPrefixOf s.data
    | _ => false
  | _ => false

/-- A value is absent when it is `undefined`. -/
def isAbsent : Value → Bool
  | undefined => true
  | _ => false

/-! ## Sample documents -/

/-- A published article. -/
def published : Value :=
  object [("_id", string "abc"), ("_type", string "article")]

/-- The draft of the same article. -/
def draft : Value :=
  object [("_id", string "drafts.abc"), ("_type", string "article")]

/-- A second published article. -/
def published2 : Value :=
  object [("_id", string "xyz"), ("_type", string "article")]

/-- A second draft. -/
def draft2 : Value :=
  object [("_id", string "drafts.xyz"), ("_type", string "article")]

/-- A record that has no `_id`. -/
def anonymous : Value :=
  object [("_type", string "article")]

/-! ## Auxiliary facts -/

theorem isDocument_iff (x : Value) :
    isDocument x = true ↔
      ∃ fields s, x = object fields ∧ lookupField "_id" fields = some (string s) := by
  constructor
  · intro h
    cases x with
    | object fields =>
      cases hl : lookupField "_id" fields with
      | none => simp [isDocument, hl] at h
      | some v =>
        cases v with
        | string s => exact ⟨fields, s, rfl, hl⟩
        | _ => simp [isDocument, hl] at h
    | _ => simp [isDocument] at h
  · rintro ⟨fields, s, rfl, hl⟩
    simp [isDocument, hl]

theorem draftTest_of_isDocument {x : Value} (h : isDocument x = true) :
    draftTest x = .ok (isDraft x) := by
  obtain ⟨fields, s, rfl, hl⟩ := (isDocument_iff x).1 h
  simp [isDraft, draftTest, getProp, hl, startsWith, bind, Except.bind]

theorem isDocument_of_draftTest {x : Value} {b : Bool} (h : draftTest x = .ok b) :
    isDocument x = true := by
  cases x with
  | object fields =>
    cases hl : lookupField "_id" fields with
    | none => simp [draftTest, getProp, hl, startsWith, bind, Except.bind] at h
    | some v =>
      cases v <;>
        simp [draftTest, getProp, hl, startsWith, bind, Except.bind, isDocument] at h ⊢
  | _ => simp [draftTest, getProp, startsWith, bind, Except.bind] at h

theorem filterArray_of_documents (xs : List Value) (h : ∀ x ∈ xs, isDocument x = true) :
    filterArray draftTest xs = .ok (xs.filter isDraft) := by
  induction xs with
  | nil => rfl
  | cons x xs ih =>
    have hx := draftTest_of_isDocument (h x (List.mem_cons_self _ _))
    have hxs := ih (fun y hy => h y (List.mem_cons_of_mem _ hy))
    cases hd : isDraft x <;>
      simp [filterArray, hx, hxs, hd, bind, Except.bind, pure, Except.pure]

theorem filterArray_ok (xs ys : List Value) (h : filterArray draftTest xs = .ok ys) :
    (∀ x ∈ xs, isDocument x = true) ∧ ys = xs.filter isDraft := by
  induction xs generalizing ys with
  | nil =>
    simp [filterArray] at h
    simp [h]
  | cons x xs ih =>
    cases hx : draftTest x with
    | error e => simp [filterArray, hx, bind, Except.bind] at h
    | ok b =>
      cases hxs : filterArray draftTest xs with
      | error e => simp [filterArray, hx, hxs, bind, Except.bind] at h
      | ok zs =>
        obtain ⟨hdoc, hzs⟩ := ih zs hxs
        have hdx := isDocument_of_draftTest hx
        have hb : isDraft x = b := by simp [isDraft, hx]
        refine ⟨?_, ?_⟩
        · intro y hy
          rcases List.mem_cons.1 hy with rfl | hy
          · exact hdx
          · exact hdoc y hy
        · cases b <;>
            simp [filterArray, hx, hxs, bind, Except.bind, pure, Except.pure] at h <;>
            simp [← h, hzs, hb]

theorem sliceLast_nil : sliceLast [] = undefined := rfl

theorem sliceLast_concat (xs : List Value) (d : Value) : sliceLast (xs ++ [d]) = d := by
  simp [sliceLast]

theorem sliceLast_cases (xs : List Value) : sliceLast xs = undefined ∨ sliceLast xs ∈ xs := by
  cases h : xs.getLast? with
  | none => left; simp [sliceLast, h]
  | some v => right; simpa [sliceLast, h] using List.mem_of_getLast?_eq_some h

theorem filter_isDraft_last (pre post : List Value) (d : Value) (hd : isDraft d = true)
    (hpost : ∀ x ∈ post, isDraft x = false) :
    (pre ++ d :: post).filter isDraft = pre.filter isDraft ++ [d] := by
  have hnil : post.filter isDraft = [] := by
    rw [List.filter_eq_nil_iff]
    intro x hx
    simp [hpost x hx]
  simp [List.filter_append, List.filter_cons, hd, hnil]

theorem last_draft_split (xs : List Value) (h : ∃ x ∈ xs, isDraft x = true) :
    ∃ pre d post, xs = pre ++ d :: post ∧ isDraft d = true ∧
      ∀ x ∈ post, isDraft x = false := by
  induction xs with
  | nil => simp at h
  | cons a xs ih =>
    by_cases hxs : ∃ x ∈ xs, isDraft x = true
    · obtain ⟨pre, d, post, rfl, hd, hpost⟩ := ih hxs
      exact ⟨a :: pre, d, post, rfl, hd, hpost⟩
    · have hnone : ∀ x ∈ xs, isDraft x = false := by
        intro x hx
        cases hx2 : isDraft x with
        | false => rfl
        | true => exact absurd ⟨x, hx, hx2⟩ hxs
      obtain ⟨x, hx, hdx⟩ := h
      rcases List.mem_cons.1 hx with rfl | hx
      · exact ⟨[], x, xs, rfl, hdx, hnone⟩
      · exact absurd ⟨x, hx, hdx⟩ hxs

theorem filterDataToSingleItem_array_false (xs : List Value) :
    filterDataToSingleItem (array xs) false = .ok (sliceLast xs) := by
  simp [filterDataToSingleItem, pure, Except.pure]

theorem filterDataToSingleItem_short (xs : List Value) (p : Bool) (h : xs.length ≤ 1) :
    filterDataToSingleItem (array xs) p = .ok (sliceLast xs) := by
  have : ¬ (xs.length > 1) := by omega
  simp [filterDataToSingleItem, this, pure, Except.pure]

theorem filterDataToSingleItem_preview (xs : List Value) (h : 1 < xs.length) :
    filterDataToSingleItem (array xs) true =
      (filterArray draftTest xs).map sliceLast := by
  simp only [filterDataToSingleItem, gt_iff_lt, h, decide_True, Bool.and_self, if_true]
  cases filterArray draftTest xs <;> rfl

theorem filterDataToSingleItem_result (xs : List Value) (p : Bool) (v : Value)
    (h : filterDataToSingleItem (array xs) p = .ok v) : v = undefined ∨ v ∈ xs := by
  by_cases hc : 1 < xs.length ∧ p = true
  · obtain ⟨hlen, rfl⟩ := hc
    rw [filterDataToSingleItem_preview xs hlen] at h
    cases hf : filterArray draftTest xs with
    | error e => simp [hf, Except.map] at h
    | ok ys =>
      simp [hf, Except.map] at h
      obtain ⟨_, hys⟩ := filterArray_ok xs ys hf
      rcases sliceLast_cases ys with hu | hm
      · left; rw [← h, hu]
      · right
        rw [h, hys] at hm
        exact (List.mem_filter.1 hm).1
  · have hs : filterDataToSingleItem (array xs) p = .ok (sliceLast xs) := by
      by_cases hp : p = true
      · exact filterDataToSingleItem_short xs p (by
          have : ¬ 1 < xs.length := fun hl => hc ⟨hl, hp⟩
          omega)
      · have : p = false := by simpa using hp
        rw [this]; exact filterDataToSingleItem_array_false xs
    rw [hs] at h
    have hv : sliceLast xs = v := by simpa using h
    rw [← hv]
    exact sliceLast_cases xs

theorem filterDataToSingleItem_nonArray (d : Value) (p : Bool) (h : isArray d = false) :
    filterDataToSingleItem d p = .ok d := by
  cases d <;> first | rfl | simp [isArray] at h

theorem isDraft_eq_hasDraftId (x : Value) : isDraft x = hasDraftId x := by
  cases x with
  | object fields =>
    cases hl : lookupField "_id" fields with
    | none => simp [isDraft, hasDraftId, draftTest, getProp, hl, startsWith, bind, Except.bind]
    | some v =>
      cases v <;>
        simp [isDraft, hasDraftId, draftTest, getProp, hl, startsWith, bind, Except.bind,
          draftPrefix, draftNamespace]
  | _ => simp [isDraft, hasDraftId, draftTest, getProp, startsWith, bind, Except.bind]

theorem draftTest_error {x : Value} {e : JSError} (h : draftTest x = .error e) :
    e = .typeError := by
  cases x with
  | object fields =>
    cases hl : lookupField "_id" fields with
    | none =>
      simp [draftTest, getProp, hl, startsWith, bind, Except.bind] at h
      exact h.symm
    | some v =>
      cases v <;> simp [draftTest, getProp, hl, startsWith, bind, Except.bind] at h <;>
        exact h.symm
  | _ =>
    simp [draftTest, getProp, startsWith, bind, Except.bind] at h
    exact h.symm

theorem filterArray_error (xs : List Value) (e : JSError)
    (h : filterArray draftTest xs = .error e) : e = .typeError := by
  induction xs with
  | nil => simp [filterArray] at h
  | cons x xs ih =>
    cases hx : draftTest x with
    | error e2 =>
      simp [filterArray, hx, bind, Except.bind] at h
      rw [← h]
      exact draftTest_error hx
    | ok b =>
      cases hxs : filterArray draftTest xs with
      | error e2 =>
        simp [filterArray, hx, hxs, bind, Except.bind] at h
        subst h
        exact ih hxs
      | ok zs => simp [filterArray, hx, hxs, bind, Except.bind, pure, Except.pure] at h

theorem filterDataToSingleItem_raises (xs : List Value) (hlen : 1 < xs.length)
    (hbad : ∃ x ∈ xs, isDocument x = false) (v : Value) :
    filterDataToSingleItem (array xs) true ≠ .ok v := by
  intro h
  rw [filterDataToSingleItem_preview xs hlen] at h
  cases hf : filterArray draftTest xs with
  | error e => simp [hf, Except.map] at h
  | ok ys =>
    obtain ⟨hdoc, _⟩ := filterArray_ok xs ys hf
    obtain ⟨x, hx, hxd⟩ := hbad
    rw [hdoc x hx] at hxd
    exact Bool.noConfusion hxd

/-! ## The resolver: properties -/

/-- Claim C1: in preview mode, on a sequence of more than one document that holds a
document whose `_id` starts with `drafts.`, the resolver returns the last such
document.  The sequence does split around a draft `d` after which no draft
occurs, and for every such split, whatever stands before `d` and whatever
non-drafts stand after it, the result is `d`. -/
theorem preview_returns_last_draft (docs : List Value)
    (hdocs : ∀ x ∈ docs, isDocument x = true) (hlen : 1 < docs.length)
    (hdraft : ∃ x ∈ docs, hasDraftId x = true) :
    (∃ pre d post, docs = pre ++ d :: post ∧ hasDraftId d = true ∧
      (∀ x ∈ post, hasDraftId x = false) ∧
      filterDataToSingleItem (array docs) true = .ok d) ∧
    (∀ pre d post, docs = pre ++ d :: post → hasDraftId d = true →
      (∀ x ∈ post, hasDraftId x = false) →
      filterDataToSingleItem (array docs) true = .ok d) := by
  have key : ∀ pre d post, docs = pre ++ d :: post → hasDraftId d = true →
      (∀ x ∈ post, hasDraftId x = false) →
      filterDataToSingleItem (array docs) true = .ok d := by
    intro pre d post hsplit hd hpost
    have hd2 : isDraft d = true := by rw [isDraft_eq_hasDraftId]; exact hd
    have hpost2 : ∀ x ∈ post, isDraft x = false := by
      intro x hx
      rw [isDraft_eq_hasDraftId]
      exact hpost x hx
    rw [filterDataToSingleItem_preview docs hlen, filterArray_of_documents docs hdocs, hsplit,
      filter_isDraft_last pre post d hd2 hpost2]
    simp [Except.map, sliceLast_concat]
  refine ⟨?_, key⟩
  have hdraft2 : ∃ x ∈ docs, isDraft x = true := by
    obtain ⟨x, hx, hxd⟩ := hdraft
    exact ⟨x, hx, by rw [isDraft_eq_hasDraftId]; exact hxd⟩
  obtain ⟨pre, d, post, hsplit, hd, hpost⟩ := last_draft_split docs hdraft2
  have hd2 : hasDraftId d = true := by rw [← isDraft_eq_hasDraftId]; exact hd
  have hpost2 : ∀ x ∈ post, hasDraftId x = false := by
    intro x hx
    rw [← isDraft_eq_hasDraftId]
    exact hpost x hx
  exact ⟨pre, d, post, hsplit, hd2, hpost2, key pre d post hsplit hd2 hpost2⟩

theorem preview_returns_last_draft_witness :
    hasDraftId draft2 = true ∧ hasDraftId published2 = false ∧
      filterDataToSingleItem (array [draft, published, draft2, published2]) true =
        .ok draft2 :=
  ⟨by decide, by decide,
    (preview_returns_last_draft [draft, published, draft2, published2]
      (by decide) (by decide) (by decide)).2 [draft, published] draft2 [published2] rfl
      (by decide) (by decide)⟩

/-- Claim C2: without preview the resolver returns the last element of the
sequence as it stands, absent for the empty sequence, whatever is a draft; so a
published document followed by a draft resolves to the draft. -/
theorem nonpreview_returns_last (docs : List Value) :
    filterDataToSingleItem (array docs) false =
        .ok (match docs.getLast? with
          | some d => d
          | none => undefined) ∧
      ∀ pub dr : Value, filterDataToSingleItem (array [pub, dr]) false = .ok dr := by
  refine ⟨?_, fun pub dr => rfl⟩
  rw [filterDataToSingleItem_array_false]
  cases h : docs.getLast? <;> simp [sliceLast, h]

/-- Claim C3, as the code has it: in preview mode, on a sequence of more than one
document none of which is a draft, the resolver returns absent; the filtered
sequence is empty and its last element is `undefined`. -/
theorem preview_without_draft_absent (docs : List Value)
    (hdocs : ∀ x ∈ docs, isDocument x = true) (hlen : 1 < docs.length)
    (hnone : ∀ x ∈ docs, isDraft x = false) :
    filterDataToSingleItem (array docs) true = .ok undefined := by
  have hnil : docs.filter isDraft = [] := by
    rw [List.filter_eq_nil_iff]
    intro x hx
    simp [hnone x hx]
  rw [filterDataToSingleItem_preview docs hlen, filterArray_of_documents docs hdocs, hnil]
  rfl

theorem preview_without_draft_absent_witness :
    filterDataToSingleItem (array [published, published2]) true = .ok undefined :=
  preview_without_draft_absent [published, published2] (by decide) (by decide) (by decide)

/-- Claim C3 fails as stated: two published documents, previewed, resolve to
absent and not to the last of them. -/
theorem preview_without_draft_counterexample :
    isDraft published = false ∧ isDraft published2 = false ∧
      filterDataToSingleItem (array [published, published2]) true = .ok undefined ∧
      filterDataToSingleItem (array [published, published2]) true ≠ .ok published2 := by
  refine ⟨by decide, by decide, rfl, ?_⟩
  intro h
  have h2 : filterDataToSingleItem (array [published, published2]) true = .ok undefined := rfl
  rw [h2] at h
  simp [published2] at h

/-- Claim C4: a present result of the resolver is an element of the input
sequence, for either value of the preview flag. -/
theorem resolved_is_member (docs : List Value) (preview : Bool) (v : Value)
    (h : filterDataToSingleItem (array docs) preview = .ok v)
    (hpresent : isAbsent v = false) : v ∈ docs := by
  rcases filterDataToSingleItem_result docs preview v h with hu | hm
  · rw [hu] at hpresent
    simp [isAbsent] at hpresent
  · exact hm

theorem resolved_is_member_witness : draft ∈ [published, draft, published2] :=
  resolved_is_member [published, draft, published2] true draft rfl rfl

/-- Claim C6, as the code has it: without preview the result is the last element
of the sequence, and it is not a draft whenever that last element is not a draft. -/
theorem nonpreview_not_draft (docs : List Value) (v : Value)
    (hlast : ∀ l, docs.getLast? = some l → isDraft l = false)
    (h : filterDataToSingleItem (array docs) false = .ok v) : isDraft v = false := by
  rw [filterDataToSingleItem_array_false] at h
  have hv : sliceLast docs = v := by simpa using h
  cases hl : docs.getLast? with
  | none =>
    rw [← hv]
    simp [sliceLast, hl]
    rfl
  | some l =>
    have : v = l := by rw [← hv]; simp [sliceLast, hl]
    rw [this]
    exact hlast l hl

theorem nonpreview_not_draft_witness : isDraft published = false :=
  nonpreview_not_draft [draft, published] published
    (fun l hl => by
      have : published = l := by simpa using hl
      rw [← this]
      decide)
    rfl

/-- Claim C6 fails as stated: without preview, a published document followed by
its draft resolves to the draft. -/
theorem nonpreview_draft_counterexample :
    filterDataToSingleItem (array [published, draft]) false = .ok draft ∧
      isAbsent draft = false ∧ isDraft draft = true :=
  ⟨rfl, rfl, by decide⟩

/-- Claim C7: on a sequence of at most one element the preview flag makes no
difference; the empty sequence resolves to absent and `[D]` resolves to `D`,
whatever `D` is. -/
theorem short_sequence_ignores_preview (docs : List Value) (hlen : docs.length ≤ 1) :
    filterDataToSingleItem (array docs) true = filterDataToSingleItem (array docs) false ∧
      (docs = [] → ∀ p, filterDataToSingleItem (array docs) p = .ok undefined) ∧
      (∀ D, docs = [D] → ∀ p, filterDataToSingleItem (array docs) p = .ok D) := by
  refine ⟨?_, ?_, ?_⟩
  · rw [filterDataToSingleItem_short docs true hlen, filterDataToSingleItem_short docs false hlen]
  · intro h p
    rw [filterDataToSingleItem_short docs p hlen, h]
    rfl
  · intro D h p
    rw [filterDataToSingleItem_short docs p hlen, h]
    rfl

theorem short_sequence_ignores_preview_witness :
    filterDataToSingleItem (array [draft]) true = filterDataToSingleItem (array [draft]) false ∧
      filterDataToSingleItem (array [draft]) true = .ok draft :=
  ⟨(short_sequence_ignores_preview [draft] (by decide)).1,
    (short_sequence_ignores_preview [draft] (by decide)).2.2 draft rfl true⟩

/-- Claim C8: an input that is not a sequence is returned unchanged for either
preview value, and on a sequence of documents (records, so no element is itself a
sequence) resolving the resolver's own output again changes nothing. -/
theorem resolve_idempotent (docs : Value) (p q : Bool)
    (helems : ∀ xs, docs = array xs → ∀ x ∈ xs, isArray x = false) :
    (isArray docs = false → filterDataToSingleItem docs p = .ok docs) ∧
      (filterDataToSingleItem docs p >>= fun r => filterDataToSingleItem r q) =
        filterDataToSingleItem docs p := by
  refine ⟨filterDataToSingleItem_nonArray docs p, ?_⟩
  cases hr : filterDataToSingleItem docs p with
  | error e => rfl
  | ok v =>
    have hv : isArray v = false := by
      cases hd : isArray docs with
      | false =>
        rw [filterDataToSingleItem_nonArray docs p hd] at hr
        have : docs = v := by simpa using hr
        rw [← this]; exact hd
      | true =>
        cases docs with
        | array xs =>
          rcases filterDataToSingleItem_result xs p v hr with hu | hm
          · rw [hu]; rfl
          · exact helems xs rfl v hm
        | _ => simp [isArray] at hd
    simp [bind, Except.bind, filterDataToSingleItem_nonArray v q hv]

theorem resolve_idempotent_witness :
    (filterDataToSingleItem (array [published, draft]) true >>=
        fun r => filterDataToSingleItem r false) =
      filterDataToSingleItem (array [published, draft]) true :=
  (resolve_idempotent (array [published, draft]) true false
    (fun xs hxs x hx => by
      have hxs2 : [published, draft] = xs := by simpa using hxs
      rw [← hxs2] at hx
      simp at hx
      rcases hx with rfl | rfl <;> rfl)).2

/-- Claim C9, as the code has it: whenever the preview flag is off, or the
sequence has at most one element, or every element is a record with a string
`_id`, the resolver completes and yields absent or an element of the input
sequence, which is a document when every element is one.  With the flag on and more
than one element, an element that is not a record with a string `_id` makes the
draft test raise a `TypeError`. -/
theorem resolver_completes (docs : List Value) (p : Bool) :
    ((p = false ∨ docs.length ≤ 1 ∨ ∀ x ∈ docs, isDocument x = true) →
      ∃ v, filterDataToSingleItem (array docs) p = .ok v ∧ (v = undefined ∨ v ∈ docs) ∧
        ((∀ x ∈ docs, isDocument x = true) → v = undefined ∨ isDocument v = true)) ∧
    (p = true → 1 < docs.length → (∃ x ∈ docs, isDocument x = false) →
      filterDataToSingleItem (array docs) p = .error .typeError) := by
  constructor
  · intro h
    have hok : ∃ v, filterDataToSingleItem (array docs) p = .ok v := by
      rcases h with rfl | hlen | hdocs
      · exact ⟨_, filterDataToSingleItem_array_false docs⟩
      · exact ⟨_, filterDataToSingleItem_short docs p hlen⟩
      · cases p with
        | false => exact ⟨_, filterDataToSingleItem_array_false docs⟩
        | true =>
          by_cases hlen : 1 < docs.length
          · rw [filterDataToSingleItem_preview docs hlen, filterArray_of_documents docs hdocs]
            exact ⟨_, rfl⟩
          · exact ⟨_, filterDataToSingleItem_short docs true (by omega)⟩
    obtain ⟨v, hv⟩ := hok
    have hmem := filterDataToSingleItem_result docs p v hv
    refine ⟨v, hv, hmem, ?_⟩
    intro hdocs
    rcases hmem with hu | hm
    · exact Or.inl hu
    · exact Or.inr (hdocs v hm)
  · intro hp hlen hbad
    subst hp
    cases hr : filterDataToSingleItem (array docs) true with
    | ok v => exact absurd hr (filterDataToSingleItem_raises docs hlen hbad v)
    | error e =>
      rw [filterDataToSingleItem_preview docs hlen] at hr
      cases hf : filterArray draftTest docs with
      | ok ys => simp [hf, Except.map] at hr
      | error e2 =>
        simp [hf, Except.map] at hr
        rw [← hr, filterArray_error docs e2 hf]

theorem resolver_completes_witness :
    (∃ v, filterDataToSingleItem (array [published, draft, draft2]) true = .ok v ∧
        (v = undefined ∨ v ∈ [published, draft, draft2]) ∧
        ((∀ x ∈ [published, draft, draft2], isDocument x = true) →
          v = undefined ∨ isDocument v = true)) ∧
      filterDataToSingleItem (array [published, anonymous]) true = .error .typeError :=
  ⟨(resolver_completes [published, draft, draft2] true).1 (Or.inr (Or.inr (by decide))),
    (resolver_completes [published, anonymous] true).2 rfl (by decide) (by decide)⟩

/-- Claim C9 fails as stated: previewing a sequence of two records of which one has
no `_id` raises a `TypeError`, and so does an element that is `null`. -/
theorem resolver_raises_counterexample :
    filterDataToSingleItem (array [anonymous, published]) true = .error .typeError ∧
      filterDataToSingleItem (array [published, null]) true = .error .typeError :=
  ⟨rfl, rfl⟩

/-! ## The data-loading hook: behaviour -/

theorem getStaticProps_falsy_fetch
    (fetch : Bool → String → Value → Except JSError Value) (ctx : Context) (slug data : Value)
    (hslug : getProp ctx.params "slug" = .ok slug)
    (hfetch : fetch (ctx.preview.getD true) articleQuery (object [("slug", slug)]) = .ok data)
    (hfalsy : toBoolean data = false) :
    getStaticProps fetch ctx = .ok .notFound := by
  simp [getStaticProps, hslug, hfetch, hfalsy, bind, Except.bind, pure, Except.pure]

/-- Claim C5, evaluated on the code: when the fetch yields the empty sequence,
`getStaticProps` returns a props object whose page is `undefined`, not the
not-found response: the empty array is truthy, so the escape hatch is skipped. -/
theorem getStaticProps_empty_fetch
    (fetch : Bool → String → Value → Except JSError Value) (ctx : Context) (slug : Value)
    (hslug : getProp ctx.params "slug" = .ok slug)
    (hfetch : fetch (ctx.preview.getD true) articleQuery (object [("slug", slug)]) =
      .ok (array [])) :
    getStaticProps fetch ctx =
      .ok (.props (ctx.preview.getD true) undefined articleQuery (object [("slug", slug)])) := by
  simp only [getStaticProps, hslug, hfetch, bind, Except.bind]
  cases ctx.preview.getD true <;> rfl

theorem getStaticProps_empty_fetch_witness :
    getStaticProps (fun _ _ _ => .ok (array []))
        ⟨object [("slug", string "missing")], some false⟩ =
      .ok (.props false undefined articleQuery (object [("slug", string "missing")])) :=
  getStaticProps_empty_fetch (fun _ _ _ => .ok (array []))
    ⟨object [("slug", string "missing")], some false⟩ (string "missing") rfl rfl

/-- Claim C10, evaluated on the code: called without a preview value,
`getStaticProps` takes the default `true`: it fetches with the preview client,
resolves with the preview rule and passes `preview = true` down in the props. -/
theorem getStaticProps_default_preview
    (fetch : Bool → String → Value → Except JSError Value) (params slug data page : Value)
    (hslug : getProp params "slug" = .ok slug)
    (hfetch : fetch true articleQuery (object [("slug", slug)]) = .ok data)
    (htruthy : toBoolean data = true)
    (hpage : filterDataToSingleItem data true = .ok page) :
    getStaticProps fetch ⟨params, none⟩ =
      .ok (.props true page articleQuery (object [("slug", slug)])) := by
  simp [getStaticProps, hslug, hfetch, htruthy, hpage, bind, Except.bind, pure, Except.pure]

theorem getStaticProps_default_preview_witness :
    filterDataToSingleItem (array [draft, published]) false = .ok published ∧
      getStaticProps (fun _ _ _ => .ok (array [draft, published]))
          ⟨object [("slug", string "abc")], none⟩ =
        .ok (.props true draft articleQuery (object [("slug", string "abc")])) :=
  ⟨rfl, getStaticProps_default_preview (fun _ _ _ => .ok (array [draft, published]))
    (object [("slug", string "abc")]) (string "abc") (array [draft, published]) draft
    rfl rfl rfl rfl⟩

end SanityPreview
